import Mathlib

/-!
Verification of the mcp-memory worker (Cloudflare Workers / D1 / Vectorize).

Shallow embedding of the TypeScript sources:
  * `src/utils/email.ts`  — structured (email) record layer: company derivation,
    structured create, batched metadata lookup, merged search;
  * `src/utils/db.ts`     — D1 content store operations (store / delete / update);
  * `src/index.ts`        — the Hono route handlers (validation, failure policy,
    HTTP status mapping).

The D1 tables are modelled as Lean lists of records; SQL result order is table
order.  The Vectorize layer (`src/utils/vectorize.ts`) is not part of the
sources, so its operations are modelled from the spec where needed and are
otherwise treated as fallible external calls whose success or failure is
injected through a `Faults` record.  Every modelled operation additionally
returns the list of external calls it attempted (`Op`), so that properties of
the form "nothing else is attempted" are provable.
-/

namespace MCPMemory

/-- Characters of the lowercased domain, split on the dot, JS-`split` style:
`""` splits to `[""]`, separators at the ends produce empty fields. -/
def splitOnChar (sep : Char) : List Char → List (List Char)
  | [] => [[]]
  | c :: rest =>
    match splitOnChar sep rest with
    | [] => [[]]
    | h :: t => if c = sep then [] :: h :: t else (c :: h) :: t

/-- Model of the anchored tail of the regex `@([^>]+)>?$` from
`extractCompanyFromEmail` (src/utils/email.ts line 20): given the text `t`
following an `@`, the capture group matches exactly when `t`, after removing
one optional trailing `>`, is non-empty and contains no `>`; the capture is
that stripped text. -/
def regexCapture (t : List Char) : Option (List Char) :=
  let core := if t.getLast? = some '>' then t.dropLast else t
  if core ≠ [] ∧ '>' ∉ core then some core else none

/-- Model of `email.match(/@([^>]+)>?$/)`: the JS engine scans start positions
left to right, so the match anchors at the first `@` whose tail satisfies
`regexCapture`. -/
def findAtCapture : List Char → Option (List Char)
  | [] => none
  | c :: rest =>
    if c = '@' then
      match regexCapture rest with
      | some core => some core
      | none => findAtCapture rest
    else findAtCapture rest

/-- Steps of `extractCompanyFromEmail` after the regex match
(src/utils/email.ts lines 22–25): lowercase the captured domain, split on `.`,
drop the leading label when more than two remain, return the first label. -/
def companyFromDomain (cap : List Char) : String :=
  let domain := cap.map Char.toLower
  let parts := splitOnChar '.' domain
  let parts := if parts.length > 2 then parts.tail else parts
  String.mk (parts.headD [])

/-- Embedding of `extractCompanyFromEmail` (src/utils/email.ts lines 19–26). -/
def extractCompanyFromEmail (s : String) : Option String :=
  match findAtCapture s.toList with
  | none => none
  | some cap => some (companyFromDomain cap)

/-- Modelled from the spec's words for the company-derivation rule ("extract
the substring after the last `@` up to an optional trailing bracket, lowercase
it, split on `.`; if more than two labels remain, drop the leading label;
return the first remaining label"), for comparison with the code's
`extractCompanyFromEmail`. -/
def extractCompanySpecLastAt (s : String) : Option String :=
  let l := s.toList
  if '@' ∈ l then
    let after := (l.reverse.takeWhile (· ≠ '@')).reverse
    let core := if after.getLast? = some '>' then after.dropLast else after
    some (companyFromDomain core)
  else none

/-- Reformulation of the matching rule in the spec's style of words, used as
the amended company-derivation description: among the substrings following
each `@`, in left-to-right order, take the first one that contains no `>`
apart from an optional trailing one and is non-empty once that trailing `>`
is removed. -/
def atTails : List Char → List (List Char)
  | [] => []
  | c :: rest => (if c = '@' then [rest] else []) ++ atTails rest

def stripTrailingGt (t : List Char) : List Char :=
  if t.getLast? = some '>' then t.dropLast else t

def tailQualifies (t : List Char) : Bool :=
  decide ((stripTrailingGt t ≠ []) ∧ '>' ∉ stripTrailingGt t)

def extractCompanyAmended (s : String) : Option String :=
  match (atTails s.toList).find? tailQualifies with
  | none => none
  | some t => some (companyFromDomain (stripTrailingGt t))

example : extractCompanyFromEmail "a@mail.acme.co.uk" = some "acme" := by decide
example : extractCompanyFromEmail "a@acme.com" = some "acme" := by decide
example : extractCompanyFromEmail "a@sub.io" = some "sub" := by decide
example : extractCompanyFromEmail "not-an-email" = none := by decide
example : extractCompanyFromEmail "a@b@c.com" = some "b@c" := by decide
example : extractCompanySpecLastAt "a@b@c.com" = some "c" := by decide
example : extractCompanyFromEmail "Jane <jane@mail.acme.co.uk>" = some "acme" := by decide

/-- Row of the D1 `memories` table (src/utils/db.ts line 9); `created_at`
carries no claim-relevant information and is omitted. -/
structure Memory where
  id : String
  userId : String
  content : String
deriving DecidableEq, Repr

/-- Row of the D1 `emails` table (src/utils/db.ts line 12); `created_at`
omitted as above. -/
structure EmailRecord where
  id : String
  userId : String
  memoryId : String
  sender : String
  recipients : String
  subject : String
  date : String
  company : String
  messageId : String
  inReplyTo : String
deriving DecidableEq, Repr

/-- Entry of the Vectorize index. Modelled from the spec: `src/utils/vectorize.ts`
is not among the sources; the spec says an index entry is keyed by
`(namespace = ownerId, id)` and holds the vector of the embedded text plus
scalar attributes. The actual vector and attributes play no role in the
claims, so the entry keeps the embedded text in their place. -/
structure VectorEntry where
  id : String
  ns : String
  text : String
deriving DecidableEq, Repr

/-- Joint state of the two D1 tables and the vector index. -/
structure St where
  memories : List Memory
  emails : List EmailRecord
  vectors : List VectorEntry
deriving DecidableEq, Repr

def St.empty : St := ⟨[], [], []⟩

/-- Ranked hit returned by the Vectorize query. Modelled from the spec:
`searchMemories` (src/utils/vectorize.ts) is not among the sources; the spec
says the Vector Index query returns `(id, score)` pairs in descending score
order. Scores are modelled as integers; the claims only carry them along. -/
structure VectorHit where
  id : String
  score : Int
deriving DecidableEq, Repr

/-- Element of the list returned by `searchEmailMemories`: the email metadata
row spread together with the hit's score (`{ ...meta, score: match.score }`,
src/utils/email.ts line 150). -/
structure SearchResult where
  record : EmailRecord
  score : Int
deriving DecidableEq, Repr

/-- Lookup in the `Record<string, EmailRecord>` built by `getEmailsMetadata`
(src/utils/email.ts lines 90–106): the SQL query keeps the rows with
`memoryId IN ids AND userId = ?`, and the loop `records[row.memoryId] = row`
makes a later row override an earlier one, so the lookup of `key` returns the
last qualifying row with that `memoryId`. -/
def getEmailsMetadataMap (emails : List EmailRecord) (ids : List String)
    (uid : String) (key : String) : Option EmailRecord :=
  ((emails.filter (fun r => ids.contains r.memoryId && r.userId == uid)).filter
    (fun r => r.memoryId == key)).getLast?

/-- Number of D1 queries issued by `getEmailsMetadata` for a given id list
(src/utils/email.ts lines 95–100): the empty list returns `{}` before any
query; otherwise one query is built over the whole id set and run once. -/
def getEmailsMetadataQueryCount (ids : List String) : Nat :=
  if ids.isEmpty then 0 else 1

/-- Truthiness of the optional `company` argument in
`if (company && meta.company !== company)` (src/utils/email.ts line 149):
`undefined` and the empty string are falsy. -/
def companyTruthy : Option String → Bool
  | none => false
  | some c => c != ""

/-- Merge loop of `searchEmailMemories` (src/utils/email.ts lines 145–152)
over a fixed id set: drop hits with no metadata row, drop hits failing the
truthy company filter, keep metadata spread with the score. -/
def mergeHits (emails : List EmailRecord) (ids : List String) (uid : String)
    (company : Option String) (vr : List VectorHit) : List SearchResult :=
  vr.filterMap (fun m =>
    match getEmailsMetadataMap emails ids uid m.id with
    | none => none
    | some meta =>
      if companyTruthy company && meta.company != company.getD "" then none
      else some ⟨meta, m.score⟩)

/-- Embedding of `searchEmailMemories` (src/utils/email.ts lines 136–153).
The ranked list `vr` returned by the Vectorize query is a parameter (the
query itself is external, spec-modelled); the function batch-fetches metadata
for the full id set and merges. -/
def searchEmailMemories (vr : List VectorHit) (emails : List EmailRecord)
    (uid : String) (company : Option String) : List SearchResult :=
  mergeHits emails (vr.map (·.id)) uid company vr

/-- External calls a modelled operation can attempt, in the order the code
issues them. `contentPut`, `contentUpdate`, `contentDelete` and `emailsInsert`
are D1 statements; `embed` is the Workers-AI embedding call and
`vectorUpsert` / `vectorDelete` the Vectorize calls (the latter three are
spec-modelled, their source file being external to src/). -/
inductive Op where
  | contentPut
  | contentUpdate
  | contentDelete
  | emailsInsert
  | embed
  | vectorUpsert
  | vectorDelete
deriving DecidableEq, Repr

/-- Error taxonomy of the spec (§7); `embedError` stands for an Embedding
Provider failure, which the spec treats as a hard failure of the caller. -/
inductive Err where
  | validationError
  | notFoundError
  | storeError
  | indexError
  | embedError
deriving DecidableEq, Repr

/-- Fault injection for the external calls: a `true` field makes the
corresponding call fail (throw) when attempted. -/
structure Faults where
  fContentPut : Bool
  fContentUpdate : Bool
  fContentDelete : Bool
  fEmailsInsert : Bool
  fEmbed : Bool
  fVectorUpsert : Bool
  fVectorDelete : Bool
deriving DecidableEq, Repr

def Faults.none : Faults := ⟨false, false, false, false, false, false, false⟩

/-- Request payload of the structured create (`EmailData`,
src/utils/email.ts lines 1–10). `subject`, `body` and `sender` are typed as
strings; the empty string also models an absent field, matching the falsy
check of the handler. The optional fields are `Option`s. -/
structure EmailData where
  subject : String
  body : String
  sender : String
  recipients : Option (List String)
  date : Option String
  company : Option String
  messageId : Option String
  inReplyTo : Option String
deriving DecidableEq, Repr

/-- The `email.recipients?.join(',') ?? ''` expression
(src/utils/email.ts line 39). -/
def recipientsStr (e : EmailData) : String :=
  match e.recipients with
  | some l => String.intercalate "," l
  | none => ""

/-- The `email.company || extractCompanyFromEmail(email.sender)` expression
(src/utils/email.ts line 38): an absent or empty explicit company falls back
to derivation from the sender. -/
def effCompany (e : EmailData) : Option String :=
  match e.company with
  | some c => if c != "" then some c else extractCompanyFromEmail e.sender
  | none => extractCompanyFromEmail e.sender

/-- The textual projection embedded and stored as content
(src/utils/email.ts line 40). -/
def emailText (e : EmailData) : String :=
  e.subject ++ "\n" ++ e.body ++ "\nFrom: " ++ e.sender ++ "\nTo: " ++ recipientsStr e

/-- The row inserted into the `emails` table (src/utils/email.ts lines 57–73):
both `id` and `memoryId` are bound to the generated memory id, optional fields
default to the empty string. -/
def emailRow (e : EmailData) (uid mid : String) : EmailRecord :=
  { id := mid, userId := uid, memoryId := mid, sender := e.sender,
    recipients := recipientsStr e, subject := e.subject,
    date := e.date.getD "", company := (effCompany e).getD "",
    messageId := e.messageId.getD "", inReplyTo := e.inReplyTo.getD "" }

/-- Embedding of `storeEmailMemory` (src/utils/email.ts lines 32–75), with the
generated uuid passed in as `mid`. Step order as in the source: (1)
`storeMemoryInD1` inserts the content row (src/utils/db.ts lines 50–69, a
failure propagates); (2) `storeMemory` — modelled from the spec, its source
file being external to src/: embed the text, then upsert `(id, vector,
attributes)` into the index under namespace `uid`, either failure propagating
to the caller; (3) insert the structured row into `emails`. The result is the
final state, the list of calls attempted, and the outcome. -/
def storeEmailMemory (f : Faults) (e : EmailData) (uid mid : String) (st : St) :
    St × List Op × Except Err String :=
  if f.fContentPut then (st, [Op.contentPut], Except.error Err.storeError)
  else
    let st1 : St := { st with memories := st.memories ++ [⟨mid, uid, emailText e⟩] }
    if f.fEmbed then (st1, [Op.contentPut, Op.embed], Except.error Err.embedError)
    else if f.fVectorUpsert then
      (st1, [Op.contentPut, Op.embed, Op.vectorUpsert], Except.error Err.indexError)
    else
      let st2 : St := { st1 with vectors := st1.vectors ++ [⟨mid, uid, emailText e⟩] }
      if f.fEmailsInsert then
        (st2, [Op.contentPut, Op.embed, Op.vectorUpsert, Op.emailsInsert],
          Except.error Err.storeError)
      else
        ({ st2 with emails := st2.emails ++ [emailRow e uid mid] },
          [Op.contentPut, Op.embed, Op.vectorUpsert, Op.emailsInsert],
          Except.ok mid)

/-- HTTP response envelope: status code and the `success` flag of the JSON
body. -/
structure Resp where
  status : Nat
  success : Bool
deriving DecidableEq, Repr

/-- Result of a modelled route handler: final state, calls attempted,
response. -/
structure HOut where
  state : St
  trace : List Op
  resp : Resp
deriving DecidableEq, Repr

/-- Embedding of `DELETE /:userId/memories/:memoryId`
(src/index.ts lines 53–75). `deleteMemoryFromD1` (src/utils/db.ts lines
94–105) runs the DELETE unconditionally and never inspects the change count;
`deleteVectorById` — modelled from the spec, its source file being external
to src/ — removes the index entry `(id, namespace = uid)` and its failure is
caught by the inner try/catch and swallowed. -/
def deleteMemoryHandler (f : Faults) (uid mid : String) (st : St) : HOut :=
  if f.fContentDelete then ⟨st, [Op.contentDelete], ⟨500, false⟩⟩
  else
    let st1 : St :=
      { st with memories := st.memories.filter (fun r => !(r.id == mid && r.userId == uid)) }
    if f.fVectorDelete then ⟨st1, [Op.contentDelete, Op.vectorDelete], ⟨200, true⟩⟩
    else
      ⟨{ st1 with vectors := st1.vectors.filter (fun v => !(v.id == mid && v.ns == uid)) },
        [Op.contentDelete, Op.vectorDelete], ⟨200, true⟩⟩

/-- Upsert into the vector index. Modelled from the spec: `updateMemoryVector`
(src/utils/vectorize.ts, external to src/) recomputes the embedding and
upserts under the same `(id, namespace)` key. -/
def upsertVector (vectors : List VectorEntry) (mid uid text : String) :
    List VectorEntry :=
  vectors.filter (fun v => !(v.id == mid && v.ns == uid)) ++ [⟨mid, uid, text⟩]

/-- Model of JavaScript `String.prototype.trim`: strip leading and trailing
whitespace (src/index.ts lines 86–89 use `body.content.trim()`). -/
def jsTrim (s : String) : String :=
  String.mk (((s.toList.dropWhile Char.isWhitespace).reverse.dropWhile
    Char.isWhitespace).reverse)

/-- Embedding of `PUT /:userId/memories/:memoryId` (src/index.ts lines
78–117). The request body is `none` when it is missing or its `content` field
is not a string; validation (missing/non-string/blank-after-trim content)
rejects with 400 before any store call. `updateMemoryInD1` (src/utils/db.ts
lines 114–131) runs the UPDATE and throws a "not found" error when the change
count is zero, which the handler maps to 404; the vector update — embed plus
upsert, spec-modelled — is swallowed on failure. -/
def putMemoryHandler (f : Faults) (uid mid : String) (body : Option String)
    (st : St) : HOut :=
  match body with
  | none => ⟨st, [], ⟨400, false⟩⟩
  | some raw =>
    if jsTrim raw == "" then ⟨st, [], ⟨400, false⟩⟩
    else
      let content := jsTrim raw
      if f.fContentUpdate then ⟨st, [Op.contentUpdate], ⟨500, false⟩⟩
      else if st.memories.all (fun r => !(r.id == mid && r.userId == uid)) then
        ⟨st, [Op.contentUpdate], ⟨404, false⟩⟩
      else
        let st1 : St :=
          { st with memories := st.memories.map (fun r =>
              if r.id == mid && r.userId == uid then { r with content := content } else r) }
        if f.fEmbed then ⟨st1, [Op.contentUpdate, Op.embed], ⟨200, true⟩⟩
        else if f.fVectorUpsert then
          ⟨st1, [Op.contentUpdate, Op.embed, Op.vectorUpsert], ⟨200, true⟩⟩
        else
          ⟨{ st1 with vectors := upsertVector st1.vectors mid uid content },
            [Op.contentUpdate, Op.embed, Op.vectorUpsert], ⟨200, true⟩⟩

/-- Embedding of `POST /:userId/emails` (src/index.ts lines 120–140): a falsy
subject, body or sender rejects with 400 before `storeEmailMemory` is called;
a success maps to 200 and any propagated error to 500. -/
def postEmailsHandler (f : Faults) (uid mid : String) (e : EmailData) (st : St) :
    HOut :=
  if e.subject == "" || e.body == "" || e.sender == "" then ⟨st, [], ⟨400, false⟩⟩
  else
    match storeEmailMemory f e uid mid st with
    | (st1, tr, Except.ok _) => ⟨st1, tr, ⟨200, true⟩⟩
    | (st1, tr, Except.error _) => ⟨st1, tr, ⟨500, false⟩⟩

section Lemmas

/-- Sample inputs used by the concrete witnesses below. -/
def sampleEmail : EmailData :=
  ⟨"Quarterly report", "Numbers attached", "jane@acme.com",
    some ["bob@corp.io"], some "2024-01-01", none, none, none⟩

def emptySubjectEmail : EmailData :=
  ⟨"", "some body", "jane@acme.com", none, none, none, none, none⟩

def acmeRec : EmailRecord :=
  ⟨"m1", "u1", "m1", "jane@acme.com", "", "Report", "2024-01-01", "acme", "", ""⟩

def corpRec : EmailRecord :=
  ⟨"m2", "u1", "m2", "bob@corp.io", "", "Invoice", "2024-01-02", "corp", "", ""⟩

def sampleEmails : List EmailRecord := [acmeRec, corpRec]

def sampleHits : List VectorHit := [⟨"m2", 9⟩, ⟨"m1", 7⟩, ⟨"ghost", 5⟩]

def sampleMemory : Memory := ⟨"m1", "u1", "old text"⟩

def sampleSt : St := ⟨[sampleMemory], sampleEmails, [⟨"m1", "u1", "old text"⟩]⟩

lemma getLastMem {α : Type} {l : List α} {a : α} (h : l.getLast? = some a) :
    a ∈ l := by
  induction l with
  | nil => simp at h
  | cons x xs ih =>
    cases xs with
    | nil => simp [List.getLast?] at h; simp [h]
    | cons y ys =>
      rw [List.getLast?_cons_cons] at h
      exact List.mem_cons_of_mem _ (ih h)

lemma getEmailsMetadataMap_some {emails : List EmailRecord} {ids : List String}
    {uid key : String} {r : EmailRecord}
    (h : getEmailsMetadataMap emails ids uid key = some r) :
    r ∈ emails ∧ r.userId = uid ∧ r.memoryId = key := by
  unfold getEmailsMetadataMap at h
  have hmem := getLastMem h
  rw [List.mem_filter] at hmem
  obtain ⟨hmem2, hkey⟩ := hmem
  rw [List.mem_filter] at hmem2
  obtain ⟨hin, hcond⟩ := hmem2
  rw [Bool.and_eq_true, beq_iff_eq] at hcond
  rw [beq_iff_eq] at hkey
  exact ⟨hin, hcond.2, hkey⟩

lemma regexCapture_eq (t : List Char) :
    regexCapture t = if tailQualifies t then some (stripTrailingGt t) else none := by
  by_cases h : (stripTrailingGt t ≠ []) ∧ '>' ∉ stripTrailingGt t
  · simp only [regexCapture, tailQualifies, stripTrailingGt] at *
    simp [h]
  · simp only [regexCapture, tailQualifies, stripTrailingGt] at *
    simp [h]

lemma findAtCapture_eq (l : List Char) :
    findAtCapture l = ((atTails l).find? tailQualifies).map stripTrailingGt := by
  induction l with
  | nil => rfl
  | cons c rest ih =>
    by_cases hc : c = '@'
    · subst hc
      rw [findAtCapture, if_pos rfl, regexCapture_eq]
      simp only [atTails, if_pos rfl, List.cons_append, List.nil_append,
        List.find?_cons]
      by_cases hq : tailQualifies rest
      · simp [hq]
      · simp only [Bool.not_eq_true] at hq
        simp [hq, ih]
    · rw [findAtCapture, if_neg hc]
      simp only [atTails, if_neg hc, List.nil_append]
      exact ih

end Lemmas

/-- Claim C8, counterexample: for the empty id list `getEmailsMetadata`
returns `{}` before preparing any statement (src/utils/email.ts line 95), so
it executes zero store queries, not exactly one. -/
theorem batchedLookup_empty_counterexample :
    getEmailsMetadataQueryCount [] = 0 ∧ getEmailsMetadataQueryCount [] ≠ 1 := by
  exact ⟨rfl, by decide⟩

/-- Claim C8, amended: for every non-empty list of memory ids the batched
metadata lookup executes exactly one store query parameterized over the full
id set (for the empty list it executes zero, returning early); it never
executes a per-id loop of N queries, the query count being at most one for
every list. -/
theorem batchedLookup_single_query (ids : List String) (h : ids ≠ []) :
    getEmailsMetadataQueryCount ids = 1 ∧
    ∀ ids2 : List String, getEmailsMetadataQueryCount ids2 ≤ 1 := by
  constructor
  · simp [getEmailsMetadataQueryCount, h]
  · intro ids2
    unfold getEmailsMetadataQueryCount
    split <;> omega

theorem batchedLookup_single_query_witness :
    getEmailsMetadataQueryCount ["m1", "m2"] = 1 ∧
    ∀ ids2 : List String, getEmailsMetadataQueryCount ids2 ≤ 1 :=
  batchedLookup_single_query ["m1", "m2"] (by decide)

/-- Claim C10: supplying the empty string as the company filter returns
exactly the same result list as omitting the filter, because
`if (company && ...)` treats the empty string as falsy and never applies the
attribute filter. -/
theorem search_empty_filter_noop (vr : List VectorHit) (emails : List EmailRecord)
    (uid : String) :
    searchEmailMemories vr emails uid (some "") =
      searchEmailMemories vr emails uid none := by
  unfold searchEmailMemories mergeHits
  congr 1

/-- Claim C2: every hit returned by `searchEmailMemories` resolves to a
backing `emails` row for that owner (the returned element literally carries
that row, whose `memoryId` is one of the vector hits' ids), and a vector hit
whose id has no matching row for the owner never contributes a result. -/
theorem search_hits_resolve (vr : List VectorHit) (emails : List EmailRecord)
    (uid : String) (company : Option String) :
    (∀ r ∈ searchEmailMemories vr emails uid company,
        r.record ∈ emails ∧ r.record.userId = uid ∧
        r.record.memoryId ∈ vr.map VectorHit.id) ∧
    (∀ v : VectorHit, (∀ rec ∈ emails, ¬(rec.userId = uid ∧ rec.memoryId = v.id)) →
        ∀ r ∈ searchEmailMemories vr emails uid company, r.record.memoryId ≠ v.id) := by
  have main : ∀ r ∈ searchEmailMemories vr emails uid company,
      r.record ∈ emails ∧ r.record.userId = uid ∧
      r.record.memoryId ∈ vr.map VectorHit.id := by
    intro r hr
    unfold searchEmailMemories mergeHits at hr
    rw [List.mem_filterMap] at hr
    obtain ⟨m, hm, hf⟩ := hr
    cases hmap : getEmailsMetadataMap emails (vr.map VectorHit.id) uid m.id with
    | none => rw [hmap] at hf; simp at hf
    | some meta =>
      rw [hmap] at hf
      dsimp only at hf
      have hprops := getEmailsMetadataMap_some hmap
      have hrec : r.record = meta := by
        by_cases hdrop :
            (companyTruthy company && meta.company != company.getD "") = true
        · rw [if_pos hdrop] at hf; simp at hf
        · rw [if_neg hdrop] at hf
          cases hf
          rfl
      rw [hrec]
      refine ⟨hprops.1, hprops.2.1, ?_⟩
      rw [hprops.2.2]
      exact List.mem_map_of_mem _ hm
  refine ⟨main, ?_⟩
  intro v hnone r hr heq
  obtain ⟨hmem, huid, _⟩ := main r hr
  exact hnone r.record hmem ⟨huid, heq⟩

theorem search_hits_resolve_witness :
    ((⟨acmeRec, 7⟩ : SearchResult).record ∈ sampleEmails ∧
      (⟨acmeRec, 7⟩ : SearchResult).record.userId = "u1" ∧
      (⟨acmeRec, 7⟩ : SearchResult).record.memoryId ∈ sampleHits.map VectorHit.id) ∧
    ∀ r ∈ searchEmailMemories sampleHits sampleEmails "u1" none,
      r.record.memoryId ≠ "ghost" :=
  ⟨(search_hits_resolve sampleHits sampleEmails "u1" none).1 ⟨acmeRec, 7⟩ (by decide),
   (search_hits_resolve sampleHits sampleEmails "u1" none).2 ⟨"ghost", 5⟩ (by decide)⟩

section Lemmas2

lemma filterMap_eq_filter_filterMap {α β : Type} (p : β → Bool)
    (f g : α → Option β)
    (h : ∀ a, f a = (g a).bind (fun b => if p b then some b else none)) :
    ∀ l : List α, l.filterMap f = (l.filterMap g).filter p := by
  intro l
  induction l with
  | nil => rfl
  | cons a l ih =>
    rw [List.filterMap_cons, List.filterMap_cons, h a]
    cases hg : g a with
    | none => simpa using ih
    | some b =>
      by_cases hp : p b
      · simp [hp, List.filter_cons, ih]
      · simp [hp, List.filter_cons, ih]

lemma mergeHits_filter (emails : List EmailRecord) (ids : List String)
    (uid : String) {c : String} (hc : c ≠ "") (vr : List VectorHit) :
    mergeHits emails ids uid (some c) vr =
      (mergeHits emails ids uid none vr).filter
        (fun r => r.record.company == c) := by
  unfold mergeHits
  refine filterMap_eq_filter_filterMap _ _ _ ?_ vr
  intro m
  cases hmap : getEmailsMetadataMap emails ids uid m.id with
  | none => simp [hmap]
  | some meta =>
    by_cases hcomp : meta.company = c
    · simp [hmap, companyTruthy, hc, hcomp]
    · simp [hmap, companyTruthy, hc, hcomp]

end Lemmas2

/-- Claim C3: for a non-empty company filter value, the filtered search result
is exactly the unfiltered merged result filtered on the company attribute —
hence a subsequence of the unfiltered list in the same relative order (never
re-sorted), excluding every hit whose company differs from the filter value
and retaining every hit whose company equals it. -/
theorem search_attribute_filter (vr : List VectorHit) (emails : List EmailRecord)
    (uid : String) (c : String) (hc : c ≠ "") :
    searchEmailMemories vr emails uid (some c) =
      (searchEmailMemories vr emails uid none).filter
        (fun r => r.record.company == c) ∧
    (searchEmailMemories vr emails uid (some c)).Sublist
      (searchEmailMemories vr emails uid none) ∧
    (∀ r ∈ searchEmailMemories vr emails uid (some c), r.record.company = c) ∧
    (∀ r ∈ searchEmailMemories vr emails uid none, r.record.company = c →
        r ∈ searchEmailMemories vr emails uid (some c)) := by
  unfold searchEmailMemories
  have hkey := mergeHits_filter emails (vr.map VectorHit.id) uid hc vr
  refine ⟨hkey, hkey ▸ List.filter_sublist _, ?_, ?_⟩
  · intro r hr
    rw [hkey, List.mem_filter] at hr
    exact beq_iff_eq.mp hr.2
  · intro r hr hcomp
    rw [hkey, List.mem_filter]
    exact ⟨hr, beq_iff_eq.mpr hcomp⟩

theorem search_attribute_filter_witness :
    searchEmailMemories sampleHits sampleEmails "u1" (some "acme") =
      (searchEmailMemories sampleHits sampleEmails "u1" none).filter
        (fun r => r.record.company == "acme") :=
  (search_attribute_filter sampleHits sampleEmails "u1" "acme" (by decide)).1

section FaultConfigs

def faultContentPut : Faults := { Faults.none with fContentPut := true }

def faultEmbed : Faults := { Faults.none with fEmbed := true }

def faultUpsert : Faults := { Faults.none with fVectorUpsert := true }

def faultVectorDelete : Faults := { Faults.none with fVectorDelete := true }

end FaultConfigs

/-- Claim C1: on a structured create, if the content-row write fails the
operation aborts with a store error, nothing else is attempted and the state
is unchanged; if the embedding or the vector upsert fails after the content
row was committed, the error propagates while the content row remains
committed and neither the vector entry nor the structured row is written. -/
theorem storeEmail_failure_policy (f : Faults) (e : EmailData) (uid mid : String)
    (st : St) :
    (f.fContentPut = true →
      storeEmailMemory f e uid mid st =
        (st, [Op.contentPut], Except.error Err.storeError)) ∧
    (f.fContentPut = false → f.fEmbed = true →
      storeEmailMemory f e uid mid st =
        ({ st with memories := st.memories ++ [⟨mid, uid, emailText e⟩] },
          [Op.contentPut, Op.embed], Except.error Err.embedError)) ∧
    (f.fContentPut = false → f.fEmbed = false → f.fVectorUpsert = true →
      storeEmailMemory f e uid mid st =
        ({ st with memories := st.memories ++ [⟨mid, uid, emailText e⟩] },
          [Op.contentPut, Op.embed, Op.vectorUpsert],
          Except.error Err.indexError)) := by
  refine ⟨?_, ?_, ?_⟩
  · intro h1
    simp [storeEmailMemory, h1]
  · intro h1 h2
    simp [storeEmailMemory, h1, h2]
  · intro h1 h2 h3
    simp [storeEmailMemory, h1, h2, h3]

theorem storeEmail_failure_policy_witness :
    storeEmailMemory faultContentPut sampleEmail "u1" "m9" sampleSt =
      (sampleSt, [Op.contentPut], Except.error Err.storeError) ∧
    storeEmailMemory faultEmbed sampleEmail "u1" "m9" sampleSt =
      ({ sampleSt with
          memories := sampleSt.memories ++ [⟨"m9", "u1", emailText sampleEmail⟩] },
        [Op.contentPut, Op.embed], Except.error Err.embedError) ∧
    storeEmailMemory faultUpsert sampleEmail "u1" "m9" sampleSt =
      ({ sampleSt with
          memories := sampleSt.memories ++ [⟨"m9", "u1", emailText sampleEmail⟩] },
        [Op.contentPut, Op.embed, Op.vectorUpsert],
        Except.error Err.indexError) :=
  ⟨(storeEmail_failure_policy faultContentPut sampleEmail "u1" "m9" sampleSt).1 rfl,
   (storeEmail_failure_policy faultEmbed sampleEmail "u1" "m9" sampleSt).2.1 rfl rfl,
   (storeEmail_failure_policy faultUpsert sampleEmail "u1" "m9" sampleSt).2.2
     rfl rfl rfl⟩

/-- Claim C4: on update and on delete of a generic memory, when the content
store step succeeds but the vector-index step fails, the failure is
swallowed: both handlers still report success (HTTP 200, success true) and
the content-store change — the updated content, respectively the deleted row
— is preserved (and on update the index is left untouched, hence stale). -/
theorem update_delete_swallow_index_failure (f g : Faults) (uid mid raw : String)
    (st : St)
    (hraw : jsTrim raw ≠ "") (hcu : f.fContentUpdate = false)
    (hvec : f.fEmbed = true ∨ f.fVectorUpsert = true)
    (hrow : ∃ r ∈ st.memories, r.id = mid ∧ r.userId = uid)
    (hcd : g.fContentDelete = false) (hvd : g.fVectorDelete = true) :
    ((putMemoryHandler f uid mid (some raw) st).resp = ⟨200, true⟩ ∧
      (putMemoryHandler f uid mid (some raw) st).state.memories =
        st.memories.map (fun r =>
          if r.id == mid && r.userId == uid then { r with content := jsTrim raw }
          else r) ∧
      (putMemoryHandler f uid mid (some raw) st).state.vectors = st.vectors) ∧
    deleteMemoryHandler g uid mid st =
      ⟨{ st with memories :=
          st.memories.filter (fun r => !(r.id == mid && r.userId == uid)) },
        [Op.contentDelete, Op.vectorDelete], ⟨200, true⟩⟩ := by
  have hbeq : (jsTrim raw == "") = false := beq_eq_false_iff_ne.mpr hraw
  have hP : ¬ ∀ x ∈ st.memories, ¬x.id = mid ∨ ¬x.userId = uid := by
    obtain ⟨r, hr, hid, huid⟩ := hrow
    intro hall
    rcases hall r hr with h | h
    · exact h hid
    · exact h huid
  constructor
  · by_cases hfe : f.fEmbed = true
    · simp [putMemoryHandler, hbeq, hcu, hfe, hP]
    · rw [Bool.not_eq_true] at hfe
      have hfv : f.fVectorUpsert = true := by
        rcases hvec with h | h
        · rw [hfe] at h; cases h
        · exact h
      simp [putMemoryHandler, hbeq, hcu, hfe, hfv, hP]
  · simp [deleteMemoryHandler, hcd, hvd]

theorem update_delete_swallow_index_failure_witness :
    ((putMemoryHandler faultEmbed "u1" "m1" (some "new note") sampleSt).resp =
        ⟨200, true⟩ ∧
      (putMemoryHandler faultEmbed "u1" "m1" (some "new note") sampleSt).state.memories =
        sampleSt.memories.map (fun r =>
          if r.id == "m1" && r.userId == "u1" then { r with content := jsTrim "new note" }
          else r) ∧
      (putMemoryHandler faultEmbed "u1" "m1" (some "new note") sampleSt).state.vectors =
        sampleSt.vectors) ∧
    deleteMemoryHandler faultVectorDelete "u1" "m1" sampleSt =
      ⟨{ sampleSt with memories :=
          sampleSt.memories.filter (fun r => !(r.id == "m1" && r.userId == "u1")) },
        [Op.contentDelete, Op.vectorDelete], ⟨200, true⟩⟩ :=
  update_delete_swallow_index_failure faultEmbed faultVectorDelete "u1" "m1"
    "new note" sampleSt (by decide) rfl (Or.inl rfl) (by decide) rfl rfl

/-- Claim C5: an update targeting an `(id, ownerId)` pair matched by no
content row reports 404 (the "not found" error from `updateMemoryInD1`), the
state is unchanged, and no vector-index call is attempted (the trace holds
only the content-store UPDATE). -/
theorem update_not_found (f : Faults) (uid mid raw : String) (st : St)
    (hraw : jsTrim raw ≠ "") (hcu : f.fContentUpdate = false)
    (hnone : ∀ r ∈ st.memories, ¬(r.id = mid ∧ r.userId = uid)) :
    putMemoryHandler f uid mid (some raw) st =
      ⟨st, [Op.contentUpdate], ⟨404, false⟩⟩ := by
  have hbeq : (jsTrim raw == "") = false := beq_eq_false_iff_ne.mpr hraw
  have hP : ∀ x ∈ st.memories, ¬x.id = mid ∨ ¬x.userId = uid := by
    intro x hx
    by_cases h1 : x.id = mid
    · exact Or.inr fun h2 => hnone x hx ⟨h1, h2⟩
    · exact Or.inl h1
  simp [putMemoryHandler, hbeq, hcu, hP]
  intro x hx h1 h2
  exact absurd ⟨h1, h2⟩ (hnone x hx)

theorem update_not_found_witness :
    putMemoryHandler Faults.none "u2" "m1" (some "hello") sampleSt =
      ⟨sampleSt, [Op.contentUpdate], ⟨404, false⟩⟩ :=
  update_not_found Faults.none "u2" "m1" "hello" sampleSt (by decide) rfl (by decide)

/-- Claim C6, counterexample: deleting a memory that does not exist for the
owner (here: any id in the empty store) reports success with HTTP 200; the
handler never maps a missing delete target to 404, contradicting the claim
that it fails with a NotFoundError surfaced as 404. -/
theorem delete_missing_reports_success :
    (∀ r ∈ St.empty.memories, ¬(r.id = "m1" ∧ r.userId = "u1")) ∧
    deleteMemoryHandler Faults.none "u1" "m1" St.empty =
      ⟨St.empty, [Op.contentDelete, Op.vectorDelete], ⟨200, true⟩⟩ ∧
    (deleteMemoryHandler Faults.none "u1" "m1" St.empty).resp.status ≠ 404 ∧
    (deleteMemoryHandler Faults.none "u1" "m1" St.empty).resp.success = true := by
  decide

/-- Claim C6, amended: a delete whose target `(id, ownerId)` does not exist
for the given owner still reports success (200-equivalent) — the content-store
DELETE never inspects its change count, so delete is idempotent and leaves the
memories unchanged; only update maps a missing target to a 404-equivalent
NotFoundError. -/
theorem delete_missing_idempotent (g : Faults) (uid mid : String) (st : St)
    (hcd : g.fContentDelete = false)
    (hnone : ∀ r ∈ st.memories, ¬(r.id = mid ∧ r.userId = uid)) :
    (deleteMemoryHandler g uid mid st).resp = ⟨200, true⟩ ∧
    (deleteMemoryHandler g uid mid st).state.memories = st.memories := by
  have hP : ∀ x ∈ st.memories, ¬x.id = mid ∨ ¬x.userId = uid := by
    intro x hx
    by_cases h1 : x.id = mid
    · exact Or.inr fun h2 => hnone x hx ⟨h1, h2⟩
    · exact Or.inl h1
  by_cases hvd : g.fVectorDelete = true
  · simp [deleteMemoryHandler, hcd, hvd]
    exact hP
  · rw [Bool.not_eq_true] at hvd
    simp [deleteMemoryHandler, hcd, hvd]
    exact hP

theorem delete_missing_idempotent_witness :
    (deleteMemoryHandler Faults.none "u9" "nope" sampleSt).resp = ⟨200, true⟩ ∧
    (deleteMemoryHandler Faults.none "u9" "nope" sampleSt).state.memories =
      sampleSt.memories :=
  delete_missing_idempotent Faults.none "u9" "nope" sampleSt rfl (by decide)

/-- Claim C9: a structured create with an empty (or absent, modelled as empty)
subject, body or sender, and an update whose body is missing or whose content
trims to empty, are rejected with a 400 response before any store or index
call is attempted (empty trace) and leave the state unchanged. -/
theorem validation_before_side_effects (f : Faults) (uid mid : String)
    (e : EmailData) (body : Option String) (st : St) :
    ((e.subject = "" ∨ e.body = "" ∨ e.sender = "") →
      postEmailsHandler f uid mid e st = ⟨st, [], ⟨400, false⟩⟩) ∧
    ((body = Option.none ∨ ∃ raw, body = some raw ∧ jsTrim raw = "") →
      putMemoryHandler f uid mid body st = ⟨st, [], ⟨400, false⟩⟩) := by
  constructor
  · intro h
    have hv : (e.subject == "" || e.body == "" || e.sender == "") = true := by
      rcases h with h | h | h <;> simp [h]
    simp [postEmailsHandler, hv]
  · intro h
    rcases h with h | ⟨raw, hb, ht⟩
    · subst h; rfl
    · subst hb
      simp [putMemoryHandler, ht]

theorem validation_before_side_effects_witness :
    postEmailsHandler Faults.none "u1" "m9" emptySubjectEmail sampleSt =
      ⟨sampleSt, [], ⟨400, false⟩⟩ ∧
    putMemoryHandler Faults.none "u1" "m1" (some "   ") sampleSt =
      ⟨sampleSt, [], ⟨400, false⟩⟩ :=
  ⟨(validation_before_side_effects Faults.none "u1" "m9" emptySubjectEmail
      Option.none sampleSt).1 (Or.inl rfl),
   (validation_before_side_effects Faults.none "u1" "m1" emptySubjectEmail
      (some "   ") sampleSt).2 (Or.inr ⟨"   ", rfl, by decide⟩)⟩

end MCPMemory
